import Mathlib

/-!
# Verification of the cifuzz run/coverage/install commands

A shallow embedding of the fuzz-run orchestration code of the cifuzz
repository (package `run` in `internal/cmd/run`, package `coverage` in
`internal/cmd/coverage`, package `install`), together with proofs of the
behavioural properties stated in the design specification.

File-system effects are made explicit: directory trees are values of an
inductive type `FSEntry` (children listed in the lexical order in which
Go's `filepath.Walk`/`filepath.WalkDir` enumerates them, which is sorted
by name), the set of existing directories is a list of paths, and
stat/readdir failures are represented by dedicated `broken` constructors.

Components of the repository whose sources are not part of the excerpt
(the libfuzzer runner, the `report_handler` aggregator, the `cmdutils`
error helpers and the `minijail` sandbox builder) are modelled from the
specification; each such definition carries a doc comment starting with
`Modelled from the spec:`.
-/

/-- `filepath.Join` of two path components (for the nonempty, already-clean
components that occur in the embedded code). -/
def joinPath (a b : String) : String :=
  if a = "" then b else a ++ "/" ++ b

/-- `os.MkdirAll` on an explicit file-system state: the list of existing
directories. Creates the directory if it is absent, otherwise a no-op. -/
def mkdirAll (p : String) (fs : List String) : List String :=
  if p ∈ fs then fs else p :: fs

/-- A file-system entry as enumerated by Go's `filepath.Walk`/`filepath.WalkDir`.
`file` carries the size reported by `Info()`; `brokenFile` is a file whose
`Info()` call fails; `dir` carries its children in the (sorted) order the
walk enumerates them; `brokenDir` is a directory whose contents cannot be
read (the walk callback receives the read error for it). -/
inductive FSEntry where
  | file (name : String) (size : Nat)
  | brokenFile (name : String)
  | dir (name : String) (entries : List FSEntry)
  | brokenDir (name : String)
deriving Repr, Inhabited

mutual

/-- No stat or readdir failures anywhere in the tree. -/
def FSEntry.wellFormed : FSEntry → Bool
  | .file _ _ => true
  | .brokenFile _ => false
  | .dir _ entries => wellFormedList entries
  | .brokenDir _ => false

/-- `FSEntry.wellFormed` on every entry of a directory listing. -/
def FSEntry.wellFormedList : List FSEntry → Bool
  | [] => true
  | e :: es => e.wellFormed && wellFormedList es

end

mutual

/-- Number of non-empty files in a tree, nested subdirectories included.
This is the count the specification calls the seed count: "non-empty files
count as seeds", empty files excluded. -/
def FSEntry.seedCount : FSEntry → Nat
  | .file _ size => if size ≠ 0 then 1 else 0
  | .brokenFile _ => 0
  | .dir _ entries => seedCountList entries
  | .brokenDir _ => 0

/-- Sum of `FSEntry.seedCount` over a directory listing. -/
def FSEntry.seedCountList : List FSEntry → Nat
  | [] => 0
  | e :: es => e.seedCount + seedCountList es

end

mutual

/-- The `filepath.WalkDir` traversal performed by `countSeeds` for one seed
directory (run.go): directories contribute nothing themselves, every file
with `Size() != 0` counts one seed, and the first stat or readdir failure
aborts the walk with that error. -/
def walkCountSeeds : FSEntry → Except String Nat
  | .file _ size => .ok (if size ≠ 0 then 1 else 0)
  | .brokenFile n => .error (n ++ ": cannot stat")
  | .dir _ entries => walkCountSeedsList entries
  | .brokenDir n => .error (n ++ ": cannot read directory")

/-- `walkCountSeeds` over a directory listing, aborting at the first error. -/
def walkCountSeedsList : List FSEntry → Except String Nat
  | [] => .ok 0
  | e :: es => do
    let k ← walkCountSeeds e
    let rest ← walkCountSeedsList es
    pure (k + rest)

end

/-- `countSeeds` from run.go: iterates over the seed directories, walking
each one with `filepath.WalkDir` and accumulating the per-directory seed
counts; the first walk error makes it return `0` together with the error,
discarding the counts accumulated so far. -/
def countSeeds : List FSEntry → Nat × Option String
  | [] => (0, none)
  | d :: rest =>
    match walkCountSeeds d with
    | .error e => (0, some e)
    | .ok k =>
      match countSeeds rest with
      | (n, none) => (k + n, none)
      | (_, some e) => (0, some e)

/-- One callback invocation of the `filepath.Walk` traversal in
`runCmd.findFuzzTestExecutable`: the visited path, the entry's base name
(`info.Name()`) and whether the entry is a directory. -/
structure WalkVisit where
  path : String
  name : String
  isDir : Bool
deriving Repr, DecidableEq

mutual

/-- The visit sequence of `filepath.Walk` over a tree rooted below `parent`:
a directory is visited before its children, children in listing order. -/
def walkVisits (parent : String) : FSEntry → List WalkVisit
  | .file n _ => [⟨joinPath parent n, n, false⟩]
  | .brokenFile n => [⟨joinPath parent n, n, false⟩]
  | .dir n es => ⟨joinPath parent n, n, true⟩ :: walkVisitsList (joinPath parent n) es
  | .brokenDir n => [⟨joinPath parent n, n, true⟩]

/-- `walkVisits` over a directory listing, in order. -/
def walkVisitsList (parent : String) : List FSEntry → List WalkVisit
  | [] => []
  | e :: es => walkVisits parent e ++ walkVisitsList parent es

end

/-- `runCmd.findFuzzTestExecutable` from run.go. If the fuzz-test argument
itself exists on disk it is returned unchanged. Otherwise the build
directory (the tree `buildDir` sitting below `buildDirParent`) is walked,
`executable` is overwritten by the path of every visited entry whose base
name equals `fuzzTest` (the callback checks `info.Name() == fuzzTest` with
no file/directory distinction), and after the whole walk the last such
path is returned; the empty string signals that nothing matched and yields
the "Could not find executable" error. -/
def runCmd.findFuzzTestExecutable (fuzzTest : String) (fuzzTestExistsOnDisk : Bool)
    (buildDirParent : String) (buildDir : FSEntry) : Except String String :=
  if fuzzTestExistsOnDisk then .ok fuzzTest
  else
    let executable := (walkVisits buildDirParent buildDir).foldl
      (fun acc v => if v.name = fuzzTest then v.path else acc) ""
    if executable = "" then
      .error ("Could not find executable for fuzz test " ++ fuzzTest)
    else
      .ok executable

/-- The path of the last visited entry (file or directory) whose base name
equals `fuzzTest`, stated directly as a last-match over the visit list. -/
def specLastEntryMatch (fuzzTest : String) (visits : List WalkVisit) : Option String :=
  ((visits.filter fun v => v.name == fuzzTest).map (·.path)).getLast?

/-- The path of the last visited regular file whose base name equals
`fuzzTest`, following the claim's wording "the last visited file whose
base name equals the fuzz test name". -/
def specLastFileMatch (fuzzTest : String) (visits : List WalkVisit) : Option String :=
  ((visits.filter fun v => !v.isDir && v.name == fuzzTest).map (·.path)).getLast?

/-- The `runOptions` struct of run.go (the `--timeout` duration is kept as a
number of nanoseconds, Go's `time.Duration`). -/
structure runOptions where
  buildCommand : String
  fuzzTest : String
  seedsDirs : List String
  dictionary : String
  engineArgs : List String
  fuzzTargetArgs : List String
  timeout : Nat
  useSandbox : Bool
  printJSON : Bool
deriving Repr

/-- Modelled from the spec: `cmdutils` error values (the `cmdutils` package
itself is not among the excerpted sources, only its callers are).
`interrupted` marks the `InterruptedError` class of §7 (user- or
system-triggered cancellation); `silent` marks errors wrapped by
`WrapSilentError`/`ErrSilent`, which the top level surfaces as a quiet,
expected termination: the process exits nonzero but prints no internal
stack trace. -/
structure CmdError where
  interrupted : Bool
  silent : Bool
  msg : String
deriving Repr, DecidableEq

/-- Modelled from the spec: `cmdutils.ErrSilent`, the sentinel returned after
an error has already been logged, so the top level stays quiet. -/
def ErrSilent : CmdError :=
  { interrupted := false, silent := true, msg := "" }

/-- Modelled from the spec: `cmdutils.NewSignalError` builds the
`InterruptedError` for a received termination signal. -/
def NewSignalError (signalName : String) : CmdError :=
  { interrupted := true, silent := false, msg := "received signal " ++ signalName }

/-- Modelled from the spec: `cmdutils.WrapSilentError` marks an error as
silent without changing what it reports. -/
def WrapSilentError (e : CmdError) : CmdError :=
  { e with silent := true }

/-- Modelled from the spec: process exit-code policy (§6) — exit code 0 on a
clean run, nonzero whenever the command returns an error, the silent
interruption path included. -/
def exitCode : Option CmdError → Nat
  | none => 0
  | some _ => 1

/-- Modelled from the spec: stack traces are printed only with `--verbose`
(§7), and never for a silent error, which is surfaced as a quiet, expected
termination. -/
def printsStackTrace (verbose : Bool) : Option CmdError → Bool
  | none => false
  | some e => verbose && !e.silent

/-- `runOptions.validate` from run.go: stats every `--seeds-dir` argument
and, if set, the `--dict` argument; the first failing stat is logged and
turned into the silent error, so the run never starts. `statOk` is the
explicit file-system oracle standing for `os.Stat` succeeding. -/
def runOptions.validate (statOk : String → Bool) (opts : runOptions) : Option CmdError :=
  match opts.seedsDirs.find? (fun d => !statOk d) with
  | some _ => some ErrSilent
  | none =>
    if opts.dictionary ≠ "" && !statOk opts.dictionary then some ErrSilent
    else none

/-- The default per-fuzz-test corpus directory of run.go:
`<projectDir>/.cifuzz-corpus/<fuzzTest>`. -/
def defaultCorpusDir (projectDir fuzzTest : String) : String :=
  joinPath (joinPath projectDir ".cifuzz-corpus") fuzzTest

/-- Lines 283–296 of run.go (`runCmd.runFuzzTest`): when no `--seeds-dir`
was given, the persistent per-fuzz-test corpus directory under the hidden
`.cifuzz-corpus` path is created with `os.MkdirAll` and used as the single
seeds directory; otherwise the given directories are used unchanged.
Returns the resolved seeds directories and the updated file-system state. -/
def resolveSeedsDirs (projectDir fuzzTest : String) (seedsDirs : List String)
    (fs : List String) : List String × List String :=
  if seedsDirs.isEmpty then
    let d := defaultCorpusDir projectDir fuzzTest
    ([d], mkdirAll d fs)
  else
    (seedsDirs, fs)

/-- The `libfuzzer.RunnerOptions` struct populated by `runCmd.runFuzzTest`
(the report-handler pointer, an object reference, is omitted). -/
structure RunnerOptions where
  FuzzTarget : String
  SeedsDir : String
  AdditionalSeedsDirs : List String
  Dictionary : String
  EngineArgs : List String
  FuzzTargetArgs : List String
  Timeout : Nat
  UseMinijail : Bool
  Verbose : Bool
  KeepColor : Bool
deriving Repr

/-- Lines 298–310 of run.go: the runner options are built from the fuzz-test
executable and the resolved seeds directories, the first directory becoming
the primary `SeedsDir` and the remaining ones `AdditionalSeedsDirs`. -/
def mkRunnerOptions (fuzzTestExecutable : String) (opts : runOptions)
    (resolvedSeedsDirs : List String) (h : resolvedSeedsDirs ≠ [])
    (verbose : Bool) : RunnerOptions :=
  { FuzzTarget := fuzzTestExecutable
    SeedsDir := resolvedSeedsDirs.head h
    AdditionalSeedsDirs := resolvedSeedsDirs.tail
    Dictionary := opts.dictionary
    EngineArgs := opts.engineArgs
    FuzzTargetArgs := opts.fuzzTargetArgs
    Timeout := opts.timeout
    UseMinijail := opts.useSandbox
    Verbose := verbose
    KeepColor := !opts.printJSON }

/-- Modelled from the spec: the seed-corpus preparation of the libfuzzer
runner's `Run` (§4.2, the runner implementation is not among the excerpted
sources): it "resolves the seed corpus set (primary dir + additional
dirs), creating the primary directory if absent". Returns the corpus set
and the file-system state after the creation. -/
def runnerRunSeedPrep (opts : RunnerOptions) (fs : List String) :
    List String × List String :=
  (opts.SeedsDir :: opts.AdditionalSeedsDirs, mkdirAll opts.SeedsDir fs)

/-- Modelled from the spec: the runner's `Cleanup` of sandbox-owned
temporary resources is idempotent (§4.2, §3): a guard flag makes a second
invocation a no-op. `cleanupRuns` counts how often the actual cleanup work
was performed. -/
structure RunnerState where
  cleaned : Bool
  cleanupRuns : Nat
deriving Repr, DecidableEq

/-- Modelled from the spec: `runner.Cleanup` — performs the cleanup work
once and is a no-op afterwards. -/
def runnerCleanup (r : RunnerState) : RunnerState :=
  if r.cleaned then r else { cleaned := true, cleanupRuns := r.cleanupRuns + 1 }

/-- The event deciding a fuzzing run of `runCmd.runFuzzTest` (lines 313–339
of run.go): either one of the registered termination signals (interrupt,
terminate, quit) arrives while the run is in progress, or the runner's
`Run` completes first with its own result. -/
inductive FuzzRunEvent where
  | signalArrived (signalName : String)
  | completed (result : Option CmdError)

/-- Lines 313–339 of run.go, the errgroup of `runCmd.runFuzzTest`, resolved
per deciding event. On a signal, the handler goroutine calls
`runner.Cleanup()`, logs `cmdutils.NewSignalError` and returns it wrapped
by `cmdutils.WrapSilentError`; the shared context is then cancelled, the
runner goroutine terminates the subprocess and runs its own (idempotent,
hence no-op) cleanup, and `errgroup.Wait` returns the handler's error. On
natural completion, `cancelSignalHandler` stops the handler, which returns
nil, and `Wait` returns the runner's result; the runner has performed its
own cleanup on the way out. -/
def runCmd.runFuzzTestSupervise (r : RunnerState) (ev : FuzzRunEvent) :
    RunnerState × Option CmdError :=
  match ev with
  | .signalArrived s =>
    let r1 := runnerCleanup r
    let r2 := runnerCleanup r1
    (r2, some (WrapSilentError (NewSignalError s)))
  | .completed res =>
    (runnerCleanup r, res)

/-- The observable steps of `runCmd.run` (lines 119–146 of run.go), in
execution order: building the fuzz test, initializing the report handler,
running the fuzz test (this step stands for `runCmd.runFuzzTest` having
returned, which per §4.2/§5 happens only after the supervised subprocess
has terminated and its buffered output has been drained), and the final
`runCmd.printFinalMetrics` call, which invokes the report handler's
`PrintFinalMetrics`. -/
inductive RunStep where
  | build
  | newReportHandler
  | runFuzzTest
  | printFinalMetrics
deriving Repr, DecidableEq

/-- `runCmd.run` from run.go as a trace semantics: each stage either
succeeds (`none`) or returns its error (`some e`), and an error makes the
function return immediately, skipping all later stages. The result is the
list of stages that were executed, in order, together with the returned
error. -/
def runCmd.run (buildRes newHandlerRes fuzzRes metricsRes : Option CmdError) :
    List RunStep × Option CmdError :=
  match buildRes with
  | some e => ([.build], some e)
  | none =>
    match newHandlerRes with
    | some e => ([.build, .newReportHandler], some e)
    | none =>
      match fuzzRes with
      | some e => ([.build, .newReportHandler, .runFuzzTest], some e)
      | none =>
        ([.build, .newReportHandler, .runFuzzTest, .printFinalMetrics], metricsRes)

/-- The file-system oracle of the coverage command: whether a path exists
(`fileutil.Exists`) and the result of `filepath.EvalSymlinks` — `none`
when the path does not exist or cannot be statted, otherwise the absolute,
symlink-free resolution of the path. -/
structure CovFS where
  pathExists : String → Bool
  evalSymlinks : String → Option String

/-- One `minijail.Binding`: a host path exposed inside the sandbox. -/
structure Binding where
  Source : String
deriving Repr, DecidableEq

/-- Modelled from the spec: `cmdutils.GeneratedCorpusDir`, the per-fuzz-test
generated-corpus directory under the project-local hidden `.cifuzz-corpus`
path (§6; the `cmdutils` package is not among the excerpted sources). -/
def GeneratedCorpusDir (projectDir fuzzTest : String) : String :=
  joinPath (joinPath projectDir ".cifuzz-corpus") fuzzTest

/-- Modelled from the spec: `minijail.NewMinijail`, the Sandbox Policy
Builder (§4.1; the `minijail` package is not among the excerpted sources).
It resolves every binding's source to an absolute, symlink-free path and
fails with a `ConfigurationError` if a source does not exist or cannot be
statted; on success it produces the argument vector that runs the original
command under the sandbox with exactly those bindings exposed. -/
def NewMinijail (fs : CovFS) (args : List String) (bindings : List Binding) :
    Except String (List String) :=
  match bindings.mapM (fun b => fs.evalSymlinks b.Source) with
  | none => .error "ConfigurationError: a binding source does not exist or cannot be statted"
  | some resolved =>
    .ok ("minijail0" :: (resolved.map fun p => "-b=" ++ p) ++ ("--" :: args))

/-- The outcome of the coverage command's `runFuzzTest`: either an error
returned before any subprocess was spawned (`configError` records whether
it is a configuration error), or the subprocess spawn with its final
argument vector and whether it runs under the sandbox. -/
inductive CovOutcome where
  | err (configError : Bool) (msg : String)
  | spawned (cmdArgs : List String) (sandboxed : Bool)
deriving Repr

/-- The corpus-directory assembly of `coverageCmd.runFuzzTest` (coverage.go
lines 221–238): the user-specified seed corpus directories, then the build
result's default seed corpus if it exists, then the generated corpus
directory if it exists. -/
def coverageCorpusDirs (fs : CovFS) (projectDir fuzzTest : String)
    (seedCorpusDirs : List String) (buildSeedCorpus : String) : List String :=
  let dirs := seedCorpusDirs
  let dirs := if fs.pathExists buildSeedCorpus then dirs ++ [buildSeedCorpus] else dirs
  let gen := GeneratedCorpusDir projectDir fuzzTest
  if fs.pathExists gen then dirs ++ [gen] else dirs

/-- `coverageCmd.runFuzzTest` from coverage.go (lines 217–316), up to the
subprocess spawn. After assembling the corpus directories, every corpus
directory is resolved with `filepath.EvalSymlinks`; a resolution failure is
returned before anything is executed. The argument vector is the
executable, the resolved corpus directories and, after a `--` separator,
the fuzz-test arguments. With the sandbox enabled, `minijail.NewMinijail`
is constructed with one binding for the executable and one per resolved
corpus directory, and its command is what gets spawned; a construction
failure is returned before anything is executed. -/
def coverageCmd.runFuzzTest (fs : CovFS) (projectDir fuzzTest : String)
    (seedCorpusDirs fuzzTestArgs : List String) (useSandbox : Bool)
    (executable buildSeedCorpus : String) : CovOutcome :=
  let corpusDirs := coverageCorpusDirs fs projectDir fuzzTest seedCorpusDirs buildSeedCorpus
  match corpusDirs.mapM fs.evalSymlinks with
  | none => .err true "EvalSymlinks: no such file or directory"
  | some resolvedDirs =>
    let args := executable :: resolvedDirs ++
      (if fuzzTestArgs.isEmpty then [] else "--" :: fuzzTestArgs)
    if useSandbox then
      let bindings := ⟨executable⟩ :: resolvedDirs.map (⟨·⟩)
      match NewMinijail fs args bindings with
      | .error e => .err true e
      | .ok mjArgs => .spawned mjArgs true
    else
      .spawned args false

/-- A `Finding` as consumed by the Report Aggregator: the stable identity
derived from the crash signature (kind plus normalized detail text) and
the human-readable detail string. -/
structure Finding where
  identity : String
  details : String
deriving Repr, DecidableEq

/-- Modelled from the spec: the deduplicating state of the Report
Aggregator (§3 invariants, §4.3, §4.4; the `report_handler` package is not
among the excerpted sources): the seen-set of finding identities, the
externally visible (printed) findings in emission order, and the
raw-occurrence counter per identity, used only for debug-level output. -/
structure Aggregator where
  seen : List String
  emitted : List Finding
  rawOccurrences : String → Nat

/-- The aggregator of a fresh run: nothing seen, nothing emitted, all
raw-occurrence counters zero. -/
def Aggregator.empty : Aggregator :=
  { seen := [], emitted := [], rawOccurrences := fun _ => 0 }

/-- Modelled from the spec: `AddFinding` — the identity is computed before
consulting the seen-set; a repeat identity within the run only increments
the raw-occurrence counter, a new identity is added to the seen-set,
emitted (printed) and counted. -/
def Aggregator.addFinding (a : Aggregator) (f : Finding) : Aggregator :=
  if f.identity ∈ a.seen then
    { a with rawOccurrences := fun i =>
        if i = f.identity then a.rawOccurrences i + 1 else a.rawOccurrences i }
  else
    { seen := f.identity :: a.seen
      emitted := a.emitted ++ [f]
      rawOccurrences := fun i =>
        if i = f.identity then a.rawOccurrences i + 1 else a.rawOccurrences i }

/-- The findings recognized in one output stream, fed to the aggregator in
arrival order. -/
def Aggregator.processFindings (a : Aggregator) (fs : List Finding) : Aggregator :=
  fs.foldl Aggregator.addFinding a

/-- The `Options` struct of the installer bundler (install.go). -/
structure BundlerOptions where
  Version : String
  TargetDir : String
deriving Repr, DecidableEq

/-- The `InstallationBundler` struct of install.go (the file-mutex handle,
an object reference, is omitted). -/
structure InstallationBundler where
  Version : String
  TargetDir : String
  projectDir : String
deriving Repr, DecidableEq

/-- `InstallationBundler.lockFile` from install.go. -/
def InstallationBundler.lockFile (i : InstallationBundler) : String :=
  joinPath i.projectDir ".installer-lock"

/-- The effectful collaborators of `NewInstallationBundler`, supplied as an
explicit environment: `validateTargetDir`, `FindProjectDir`,
`filemutex.New` and `createDirectoryLayout`, each returning either its
result or an error. -/
structure InstallEnv where
  validateTargetDir : String → Except String String
  findProjectDir : Except String String
  newFileMutex : String → Except String Unit
  createDirectoryLayout : String → Except String Unit

/-- `NewInstallationBundler` from install.go, returning the Go pair
`(*InstallationBundler, error)` as an option each. The options are
validated first: the `opts.Version == ""` branch returns `nil, err` — and
`err` is still `nil` at that point, so the caller receives a nil bundler
with a nil error. Otherwise the target directory is validated, the project
directory located, the lock-file mutex created and the directory layout
laid out, each failure being returned as the error. -/
def NewInstallationBundler (env : InstallEnv) (opts : BundlerOptions) :
    Option InstallationBundler × Option String :=
  if opts.Version = "" then (none, none)
  else
    match env.validateTargetDir opts.TargetDir with
    | .error e => (none, some e)
    | .ok targetDir =>
      match env.findProjectDir with
      | .error e => (none, some e)
      | .ok projectDir =>
        let i : InstallationBundler :=
          { Version := opts.Version, TargetDir := targetDir, projectDir := projectDir }
        match env.newFileMutex i.lockFile with
        | .error e => (none, some e)
        | .ok _ =>
          match env.createDirectoryLayout i.TargetDir with
          | .error e => (none, some e)
          | .ok _ => (some i, none)

mutual

theorem walkCountSeeds_eq_seedCount :
    ∀ e : FSEntry, e.wellFormed = true → walkCountSeeds e = .ok e.seedCount
  | .file _ _, _ => rfl
  | .brokenFile _, h => by simp [FSEntry.wellFormed] at h
  | .dir _ entries, h => by
      have := walkCountSeedsList_eq_seedCountList entries
        (by simpa [FSEntry.wellFormed] using h)
      simpa [walkCountSeeds, FSEntry.seedCount] using this
  | .brokenDir _, h => by simp [FSEntry.wellFormed] at h

theorem walkCountSeedsList_eq_seedCountList :
    ∀ es : List FSEntry, FSEntry.wellFormedList es = true →
      walkCountSeedsList es = .ok (FSEntry.seedCountList es)
  | [], _ => rfl
  | e :: es, h => by
      have h1 : e.wellFormed = true := by
        have := h
        simp [FSEntry.wellFormedList] at this
        exact this.1
      have h2 : FSEntry.wellFormedList es = true := by
        have := h
        simp [FSEntry.wellFormedList] at this
        exact this.2
      have he := walkCountSeeds_eq_seedCount e h1
      have hes := walkCountSeedsList_eq_seedCountList es h2
      simp [walkCountSeedsList, he, hes, FSEntry.seedCountList]
      rfl

end

/-- Claim C4: for every list of seed directories (whose walks succeed), the
seed count reported by `countSeeds` equals the number of non-empty files
across all the directories, nested files included and empty files
excluded. -/
theorem countSeeds_counts_nonempty_files (dirs : List FSEntry)
    (h : ∀ d ∈ dirs, d.wellFormed = true) :
    countSeeds dirs = ((dirs.map FSEntry.seedCount).sum, none) := by
  induction dirs with
  | nil => rfl
  | cons d rest ih =>
    have hd := h d (by simp)
    have hr := ih (fun x hx => h x (by simp [hx]))
    simp [countSeeds, walkCountSeeds_eq_seedCount d hd, hr]

/-- The scenario of the specification: seed directory `a` holds 3 non-empty
files and 1 empty file. -/
def seedDirA : FSEntry :=
  .dir "a" [.file "f1" 10, .file "f2" 1, .file "f3" 2, .file "f4" 0]

/-- The scenario of the specification: seed directory `b` holds 2 non-empty
files. -/
def seedDirB : FSEntry :=
  .dir "b" [.file "g1" 5, .file "g2" 7]

theorem countSeeds_counts_nonempty_files_witness :
    countSeeds [seedDirA, seedDirB] = (5, none) := by
  have h := countSeeds_counts_nonempty_files [seedDirA, seedDirB] (by decide)
  have hsum : ([seedDirA, seedDirB].map FSEntry.seedCount).sum = 5 := by decide
  rw [h, hsum]

/-- Claim C8: `countSeeds` traverses each seed directory recursively — a
directory containing a (well-formed) subtree counts exactly that subtree's
non-empty files — and when walking one of the directories fails, it
returns the count `0` together with the error, discarding the counts
accumulated from the previously walked directories. -/
theorem countSeeds_error_discards_counts :
    (∀ (nm : String) (sub : FSEntry), sub.wellFormed = true →
        walkCountSeeds (.dir nm [sub]) = .ok sub.seedCount) ∧
    (∀ (pre : List FSEntry) (d : FSEntry) (post : List FSEntry) (e : String),
        (∀ x ∈ pre, x.wellFormed = true) → walkCountSeeds d = .error e →
        countSeeds (pre ++ d :: post) = (0, some e)) := by
  constructor
  · intro nm sub hsub
    simp [walkCountSeeds, walkCountSeedsList, walkCountSeeds_eq_seedCount sub hsub]
    rfl
  · intro pre d post e hpre hd
    induction pre with
    | nil => simp [countSeeds, hd]
    | cons x rest ih =>
      have hx := hpre x (by simp)
      have hrest := ih (fun y hy => hpre y (by simp [hy]))
      simp [countSeeds, walkCountSeeds_eq_seedCount x hx, hrest]

theorem countSeeds_error_discards_counts_witness :
    walkCountSeeds (.dir "seeds" [.dir "nested" [.file "s1" 4]]) = .ok 1 ∧
    countSeeds [.dir "ok" [.file "s" 3], .brokenDir "bad"]
      = (0, some "bad: cannot read directory") := by
  constructor
  · have h := countSeeds_error_discards_counts.1 "seeds"
      (.dir "nested" [.file "s1" 4]) (by decide)
    have hc : (FSEntry.dir "nested" [.file "s1" 4]).seedCount = 1 := by decide
    rw [h, hc]
  · have h := countSeeds_error_discards_counts.2 [.dir "ok" [.file "s" 3]]
      (.brokenDir "bad") [] "bad: cannot read directory" (by decide) rfl
    simpa using h

/-- Claim C10: `NewInstallationBundler` called with options whose `Version`
field is the empty string returns a nil bundler together with a nil error,
whatever the environment does: the empty-version validation branch reports
no failure to the caller. -/
theorem NewInstallationBundler_empty_version (env : InstallEnv)
    (opts : BundlerOptions) (h : opts.Version = "") :
    NewInstallationBundler env opts = (none, none) := by
  simp [NewInstallationBundler, h]

theorem NewInstallationBundler_empty_version_witness :
    NewInstallationBundler
      ⟨fun t => .ok t, .ok "proj", fun _ => .ok (), fun _ => .ok ()⟩
      ⟨"", "target"⟩ = (none, none) :=
  NewInstallationBundler_empty_version _ _ rfl

theorem getLast?_cons_getD (x init : String) (l : List String) :
    ((x :: l).getLast?).getD init = (l.getLast?).getD x := by
  cases l with
  | nil => rfl
  | cons y ys =>
    rw [List.getLast?_cons_cons]
    cases hl : (y :: ys).getLast? with
    | none => simp at hl
    | some a => rfl

theorem foldl_last_match (fuzzTest : String) (visits : List WalkVisit)
    (init : String) :
    visits.foldl (fun acc v => if v.name = fuzzTest then v.path else acc) init
      = (((visits.filter fun v => v.name == fuzzTest).map (·.path)).getLast?).getD init := by
  induction visits generalizing init with
  | nil => rfl
  | cons v vs ih =>
    by_cases h : v.name = fuzzTest
    · simp only [List.foldl_cons, List.filter_cons, h, if_pos, beq_self_eq_true,
        ite_true, List.map_cons]
      rw [ih v.path, getLast?_cons_getD]
    · have hb : (v.name == fuzzTest) = false := by simpa using h
      simp only [List.foldl_cons, List.filter_cons, hb, if_neg h, Bool.false_eq_true,
        ite_false]
      exact ih init

/-- A build directory in which a regular file named like the fuzz test is
visited before a directory of the same name: `build/a/my_fuzz_test` is a
file, `build/b/my_fuzz_test` is a directory. -/
def cexBuildDir : FSEntry :=
  .dir "build" [.dir "a" [.file "my_fuzz_test" 8], .dir "b" [.dir "my_fuzz_test" []]]

/-- Claim C9 counterexample: with the fuzz-test path absent on disk and a
build directory whose last entry named `my_fuzz_test` is a directory
visited after a file of that name, `findFuzzTestExecutable` returns the
directory path `build/b/my_fuzz_test` and no error, whereas the last
visited *file* with that base name is `build/a/my_fuzz_test` — the
callback matches `info.Name()` with no file/directory distinction, so the
function neither returns the last matching file nor errors when only a
directory matches. -/
theorem findFuzzTestExecutable_returns_directory :
    runCmd.findFuzzTestExecutable "my_fuzz_test" false "" cexBuildDir
      = .ok "build/b/my_fuzz_test" ∧
    specLastFileMatch "my_fuzz_test" (walkVisits "" cexBuildDir)
      = some "build/a/my_fuzz_test" ∧
    (∃ v ∈ walkVisits "" cexBuildDir,
       v.path = "build/b/my_fuzz_test" ∧ v.isDir = true) ∧
    "build/b/my_fuzz_test" ≠ "build/a/my_fuzz_test" := by
  refine ⟨rfl, rfl, ⟨⟨"build/b/my_fuzz_test", "my_fuzz_test", true⟩, by decide, rfl, rfl⟩, by decide⟩

/-- Claim C9 (amended): `runCmd.findFuzzTestExecutable` returns its argument
unchanged whenever that path exists on disk; otherwise it walks the entire
build directory and returns the last visited *entry — file or directory —*
whose base name equals the fuzz test name, and it returns an error only
when no entry in the build directory matches. Stated for build directories
whose walk hits no stat failure (on a failed `lstat` the Go callback would
dereference a nil `FileInfo`) and whose matching entries have nonempty
paths (the empty path is the code's no-match sentinel). -/
theorem findFuzzTestExecutable_characterization (fuzzTest buildDirParent : String)
    (fuzzTestExistsOnDisk : Bool) (buildDir : FSEntry)
    (hwf : buildDir.wellFormed = true)
    (hpaths : ∀ v ∈ walkVisits buildDirParent buildDir,
        v.name = fuzzTest → v.path ≠ "") :
    runCmd.findFuzzTestExecutable fuzzTest fuzzTestExistsOnDisk buildDirParent buildDir
      = if fuzzTestExistsOnDisk then .ok fuzzTest
        else
          match specLastEntryMatch fuzzTest (walkVisits buildDirParent buildDir) with
          | none => .error ("Could not find executable for fuzz test " ++ fuzzTest)
          | some p => .ok p := by
  cases fuzzTestExistsOnDisk with
  | true => rfl
  | false =>
    simp only [runCmd.findFuzzTestExecutable, Bool.false_eq_true, if_false,
      foldl_last_match, specLastEntryMatch]
    cases hm : (((walkVisits buildDirParent buildDir).filter
        fun v => v.name == fuzzTest).map (·.path)).getLast? with
    | none => simp [hm]
    | some p =>
      have hp : p ≠ "" := by
        obtain ⟨h0, hpeq⟩ := List.mem_getLast?_eq_getLast (Option.mem_def.mpr hm)
        have hmem : p ∈ ((walkVisits buildDirParent buildDir).filter
            fun v => v.name == fuzzTest).map (·.path) := hpeq ▸ List.getLast_mem h0
        obtain ⟨v, hv, hvp⟩ := List.mem_map.mp hmem
        have hvfilter := List.mem_filter.mp hv
        exact hvp ▸ hpaths v hvfilter.1 (by simpa using hvfilter.2)
      simp [hm, hp]

/-- A build directory with two matching regular files; the one visited last
is `root/w/sub/ft`. -/
def c9WitnessDir : FSEntry :=
  .dir "w" [.file "ft" 3, .dir "sub" [.file "ft" 1]]

theorem findFuzzTestExecutable_characterization_witness :
    runCmd.findFuzzTestExecutable "ft" false "root" c9WitnessDir
      = .ok "root/w/sub/ft" := by
  have h := findFuzzTestExecutable_characterization "ft" "root" false c9WitnessDir
    (by decide) (by decide)
  rw [h]
  rfl

theorem mem_mkdirAll (p : String) (fs : List String) : p ∈ mkdirAll p fs := by
  unfold mkdirAll
  split
  · assumption
  · exact List.mem_cons_self _ _

theorem resolveSeedsDirs_fst_ne_nil (projectDir fuzzTest : String)
    (seedsDirs fs : List String) :
    (resolveSeedsDirs projectDir fuzzTest seedsDirs fs).1 ≠ [] := by
  unfold resolveSeedsDirs
  by_cases h : seedsDirs.isEmpty
  · simp [h]
  · simp only [h, if_false, Bool.false_eq_true]
    simpa using h

/-- Claim C5: the runner options built by `runCmd.runFuzzTest` carry the
whole resolved seed corpus set — the primary `SeedsDir` followed by the
`AdditionalSeedsDirs` is exactly the resolved seeds-directory list — and
the runner's `Run` resolves that same set and creates the primary
directory if it is absent. -/
theorem run_seed_corpus_resolution (fuzzTestExecutable projectDir : String)
    (opts : runOptions) (verbose : Bool) (fs runnerFs : List String) :
    let dirs := (resolveSeedsDirs projectDir opts.fuzzTest opts.seedsDirs fs).1
    let ropts := mkRunnerOptions fuzzTestExecutable opts dirs
      (resolveSeedsDirs_fst_ne_nil projectDir opts.fuzzTest opts.seedsDirs fs) verbose
    ropts.SeedsDir :: ropts.AdditionalSeedsDirs = dirs ∧
    (runnerRunSeedPrep ropts runnerFs).1 = dirs ∧
    ropts.SeedsDir ∈ (runnerRunSeedPrep ropts runnerFs).2 := by
  intro dirs ropts
  refine ⟨List.head_cons_tail _ _, ?_, ?_⟩
  · simpa [runnerRunSeedPrep, ropts, mkRunnerOptions] using
      List.head_cons_tail dirs (resolveSeedsDirs_fst_ne_nil projectDir
        opts.fuzzTest opts.seedsDirs fs)
  · simpa [runnerRunSeedPrep] using
      mem_mkdirAll ropts.SeedsDir runnerFs

/-- Claim C6: when no seed directory is explicitly given, `runCmd.runFuzzTest`
uses as its only seed location the persistent per-fuzz-test corpus directory
`<projectDir>/.cifuzz-corpus/<fuzzTest>` under the project-local hidden
`.cifuzz-corpus` path — one subdirectory per fuzz test — and creates it
(with `os.MkdirAll`) if needed. -/
theorem default_corpus_dir_used (projectDir fuzzTest : String) (fs : List String) :
    (resolveSeedsDirs projectDir fuzzTest [] fs).1
      = [joinPath (joinPath projectDir ".cifuzz-corpus") fuzzTest] ∧
    defaultCorpusDir projectDir fuzzTest ∈ (resolveSeedsDirs projectDir fuzzTest [] fs).2 := by
  refine ⟨rfl, ?_⟩
  simpa [resolveSeedsDirs] using
    mem_mkdirAll (defaultCorpusDir projectDir fuzzTest) fs

/-- Claim C1: when one of the registered OS termination signals (interrupt,
terminate, quit) arrives while the fuzzing run is in progress, the run of
`runCmd.runFuzzTest` returns the `InterruptedError` built by
`NewSignalError`, wrapped as a silent error; no stack trace is printed in
default non-verbose mode, the overall process exit code is nonzero, and
the runner's cleanup work is performed exactly once (the second,
context-cancellation-path invocation being an idempotent no-op). -/
theorem signal_interrupts_run_silently (r : RunnerState) (signalName : String)
    (hfresh : r.cleaned = false) :
    (runCmd.runFuzzTestSupervise r (.signalArrived signalName)).2
      = some (WrapSilentError (NewSignalError signalName)) ∧
    (WrapSilentError (NewSignalError signalName)).interrupted = true ∧
    (WrapSilentError (NewSignalError signalName)).silent = true ∧
    printsStackTrace false
      (runCmd.runFuzzTestSupervise r (.signalArrived signalName)).2 = false ∧
    exitCode (runCmd.runFuzzTestSupervise r (.signalArrived signalName)).2 ≠ 0 ∧
    (runCmd.runFuzzTestSupervise r (.signalArrived signalName)).1.cleanupRuns
      = r.cleanupRuns + 1 := by
  refine ⟨rfl, rfl, rfl, rfl, by simp [runCmd.runFuzzTestSupervise, exitCode], ?_⟩
  simp [runCmd.runFuzzTestSupervise, runnerCleanup, hfresh]

theorem signal_interrupts_run_silently_witness :
    (runCmd.runFuzzTestSupervise ⟨false, 0⟩ (.signalArrived "interrupt")).2
      = some (WrapSilentError (NewSignalError "interrupt")) ∧
    (WrapSilentError (NewSignalError "interrupt")).interrupted = true ∧
    (WrapSilentError (NewSignalError "interrupt")).silent = true ∧
    printsStackTrace false
      (runCmd.runFuzzTestSupervise ⟨false, 0⟩ (.signalArrived "interrupt")).2 = false ∧
    exitCode (runCmd.runFuzzTestSupervise ⟨false, 0⟩ (.signalArrived "interrupt")).2 ≠ 0 ∧
    (runCmd.runFuzzTestSupervise ⟨false, 0⟩ (.signalArrived "interrupt")).1.cleanupRuns
      = 0 + 1 :=
  signal_interrupts_run_silently ⟨false, 0⟩ "interrupt" rfl

/-- Claim C2 counterexample: on the termination path where the fuzzing run
itself returns an error (for instance the silent error of an interrupting
signal), `runCmd.run` returns early and `printFinalMetrics` — hence the
report handler's `PrintFinalMetrics` — is invoked zero times, not exactly
once. -/
theorem printFinalMetrics_skipped_on_error :
    (runCmd.run none none (some ErrSilent) none).1.count RunStep.printFinalMetrics = 0 ∧
    ¬ (runCmd.run none none (some ErrSilent) none).1.count RunStep.printFinalMetrics = 1 := by
  constructor
  · rfl
  · intro h
    simp [runCmd.run, List.count] at h

/-- Claim C2 (amended): `PrintFinalMetrics` is invoked exactly once — after
the fuzzing run has returned, hence only after the supervised subprocess
has terminated and its buffered output has been drained — when the build,
the report-handler initialization and the run all succeed; when any of
these stages returns an error, `runCmd.run` returns that error early and
`PrintFinalMetrics` is not invoked at all. In every case, no
final-metrics step precedes the return of the run step in the execution
trace. -/
theorem printFinalMetrics_once_after_run (b h f m : Option CmdError) :
    ((runCmd.run b h f m).1.count RunStep.printFinalMetrics
      = if b = none ∧ h = none ∧ f = none then 1 else 0) ∧
    ((runCmd.run b h f m).1.takeWhile
        (fun s => s != RunStep.runFuzzTest)).count RunStep.printFinalMetrics = 0 := by
  rcases b with _ | e1
  · rcases h with _ | e2
    · rcases f with _ | e3
      · exact ⟨by simp [runCmd.run], by rfl⟩
      · exact ⟨by simp [runCmd.run], by rfl⟩
    · exact ⟨by simp [runCmd.run], by rfl⟩
  · exact ⟨by simp [runCmd.run], by rfl⟩

theorem mapM_option_ne_none {α β : Type} (f : α → Option β) :
    ∀ (l : List α) (r : List β), l.mapM f = some r → ∀ a ∈ l, f a ≠ none
  | [], _, _, a, ha => absurd ha (List.not_mem_nil a)
  | x :: xs, r, h, a, ha => by
    rw [List.mapM_cons] at h
    cases hfx : f x with
    | none => rw [hfx] at h; simp at h
    | some b =>
      rw [hfx] at h
      cases hxs : xs.mapM f with
      | none => rw [hxs] at h; simp at h
      | some rs =>
        rcases List.mem_cons.mp ha with rfl | hmem
        · simp [hfx]
        · exact mapM_option_ne_none f xs rs hxs a hmem

theorem mapM_option_eq_none_of_mem {α β : Type} (f : α → Option β) :
    ∀ (l : List α) (a : α), a ∈ l → f a = none → l.mapM f = none
  | [], a, ha, _ => absurd ha (List.not_mem_nil a)
  | x :: xs, a, ha, hfa => by
    rw [List.mapM_cons]
    rcases List.mem_cons.mp ha with rfl | hmem
    · simp [hfa]
    · cases hfx : f x with
      | none => simp
      | some b => rw [mapM_option_eq_none_of_mem f xs a hmem hfa]; rfl


theorem NewMinijail_ok_sources (fs : CovFS) (args : List String)
    (bindings : List Binding) (mj : List String)
    (h : NewMinijail fs args bindings = .ok mj) :
    ∀ b ∈ bindings, fs.evalSymlinks b.Source ≠ none := by
  rw [NewMinijail] at h
  cases hb : bindings.mapM (fun b => fs.evalSymlinks b.Source) with
  | none => rw [hb] at h; simp at h
  | some rs => exact fun b hbmem => mapM_option_ne_none _ _ rs hb b hbmem

theorem NewMinijail_error_of_source (fs : CovFS) (args : List String)
    (bindings : List Binding) (b : Binding)
    (hb : b ∈ bindings) (hnone : fs.evalSymlinks b.Source = none) :
    NewMinijail fs args bindings
      = .error "ConfigurationError: a binding source does not exist or cannot be statted" := by
  rw [NewMinijail, mapM_option_eq_none_of_mem _ _ b hb hnone]

/-- Claim C3: before the sandboxed command is constructed by the coverage
command, every binding's source path — the target executable and every
corpus directory — exists and is resolved (via `filepath.EvalSymlinks` and
the sandbox builder's own resolution) to an absolute, symlink-free path: a
spawn under the sandbox implies every source resolved, and a source that
does not exist or cannot be statted causes a configuration error before
any subprocess is spawned. Likewise, `runOptions.validate` turns a seeds
directory that cannot be statted into an error before the run starts. -/
theorem bindings_resolved_before_spawn (fs : CovFS)
    (projectDir fuzzTest executable buildSeedCorpus : String)
    (seedCorpusDirs fuzzTestArgs : List String)
    (statOk : String → Bool) (opts : runOptions) :
    (∀ args sandboxed,
        coverageCmd.runFuzzTest fs projectDir fuzzTest seedCorpusDirs fuzzTestArgs
            true executable buildSeedCorpus = .spawned args sandboxed →
        fs.evalSymlinks executable ≠ none ∧
        ∀ d ∈ coverageCorpusDirs fs projectDir fuzzTest seedCorpusDirs buildSeedCorpus,
          fs.evalSymlinks d ≠ none) ∧
    ((fs.evalSymlinks executable = none ∨
        ∃ d ∈ coverageCorpusDirs fs projectDir fuzzTest seedCorpusDirs buildSeedCorpus,
          fs.evalSymlinks d = none) →
      ∃ msg, coverageCmd.runFuzzTest fs projectDir fuzzTest seedCorpusDirs fuzzTestArgs
          true executable buildSeedCorpus = .err true msg) ∧
    ((∃ d ∈ opts.seedsDirs, statOk d = false) →
      runOptions.validate statOk opts = some ErrSilent) := by
  refine ⟨?_, ?_, ?_⟩
  · intro args sandboxed hsp
    rw [coverageCmd.runFuzzTest] at hsp
    split at hsp
    · exact absurd hsp (by simp)
    · rename_i resolved hmap
      simp only [if_true] at hsp
      split at hsp
      · exact absurd hsp (by simp)
      · rename_i mjArgs hmj
        refine ⟨?_, fun d hd => mapM_option_ne_none fs.evalSymlinks _ resolved hmap d hd⟩
        exact NewMinijail_ok_sources fs _ _ _ hmj ⟨executable⟩ (List.mem_cons_self _ _)
  · intro hbad
    cases hmap : (coverageCorpusDirs fs projectDir fuzzTest seedCorpusDirs
        buildSeedCorpus).mapM fs.evalSymlinks with
    | none =>
      refine ⟨"EvalSymlinks: no such file or directory", ?_⟩
      rw [coverageCmd.runFuzzTest, hmap]
    | some resolved =>
      rcases hbad with hexe | ⟨d, hd, hdnone⟩
      · refine ⟨"ConfigurationError: a binding source does not exist or cannot be statted", ?_⟩
        rw [coverageCmd.runFuzzTest, hmap]
        simp only [if_true]
        rw [NewMinijail_error_of_source fs _ _ ⟨executable⟩ (List.mem_cons_self _ _) hexe]
      · exact absurd hmap (by
          rw [mapM_option_eq_none_of_mem fs.evalSymlinks _ d hd hdnone]
          simp)
  · intro ⟨d, hd, hstat⟩
    have hfind : (opts.seedsDirs.find? fun x => !statOk x).isSome :=
      List.find?_isSome.mpr ⟨d, hd, by simp [hstat]⟩
    cases hf : opts.seedsDirs.find? fun x => !statOk x with
    | none => rw [hf] at hfind; simp at hfind
    | some x => rw [runOptions.validate, hf]

/-- A file-system oracle on which the executable path `exe` cannot be
resolved and every other path resolves to itself. -/
def covWitnessFS : CovFS :=
  { pathExists := fun _ => false
    evalSymlinks := fun p => if p = "exe" then none else some p }

/-- Run options with one seeds directory that cannot be statted. -/
def c3WitnessOpts : runOptions :=
  { buildCommand := "", fuzzTest := "ft", seedsDirs := ["missing"],
    dictionary := "", engineArgs := [], fuzzTargetArgs := [],
    timeout := 0, useSandbox := true, printJSON := false }

theorem bindings_resolved_before_spawn_witness :
    (∃ msg, coverageCmd.runFuzzTest covWitnessFS "proj" "ft" ["corp"] [] true "exe" "seedcorp"
        = .err true msg) ∧
    runOptions.validate (fun _ => false) c3WitnessOpts = some ErrSilent := by
  have h := bindings_resolved_before_spawn covWitnessFS "proj" "ft" "exe" "seedcorp"
    ["corp"] [] (fun _ => false) c3WitnessOpts
  exact ⟨h.2.1 (Or.inl rfl), h.2.2 ⟨"missing", by simp [c3WitnessOpts], rfl⟩⟩

theorem processFindings_all_seen (a : Aggregator) (id : String) (stream : List Finding)
    (hall : ∀ f ∈ stream, f.identity = id) (hseen : id ∈ a.seen) :
    (a.processFindings stream).seen = a.seen ∧
    (a.processFindings stream).emitted = a.emitted ∧
    (a.processFindings stream).rawOccurrences id = a.rawOccurrences id + stream.length := by
  induction stream generalizing a with
  | nil => simp [Aggregator.processFindings]
  | cons f rest ih =>
    have hf : f.identity = id := hall f (by simp)
    have hcond : f.identity ∈ a.seen := hf ▸ hseen
    have hstep : a.processFindings (f :: rest) = (a.addFinding f).processFindings rest := rfl
    have ha : (a.addFinding f).seen = a.seen ∧ (a.addFinding f).emitted = a.emitted ∧
        (a.addFinding f).rawOccurrences id = a.rawOccurrences id + 1 := by
      refine ⟨?_, ?_, ?_⟩ <;> simp [Aggregator.addFinding, hcond, hf, hseen]
    have hrest := ih (a.addFinding f) (fun g hg => hall g (by simp [hg]))
      (ha.1 ▸ hseen)
    refine ⟨?_, ?_, ?_⟩
    · rw [hstep, hrest.1, ha.1]
    · rw [hstep, hrest.2.1, ha.2.1]
    · rw [hstep, hrest.2.2, ha.2.2]
      simp [List.length_cons]
      omega

/-- Claim C7: for every output stream containing N occurrences of the same
logical crash signature (N findings sharing one identity) within one run,
exactly one externally visible Finding is emitted — neither double-counted
nor double-printed — and the raw-occurrence counter for that identity
equals N. -/
theorem one_finding_per_signature (id : String) (stream : List Finding)
    (hne : stream ≠ []) (hall : ∀ f ∈ stream, f.identity = id) :
    (Aggregator.empty.processFindings stream).emitted.length = 1 ∧
    (Aggregator.empty.processFindings stream).rawOccurrences id = stream.length := by
  cases stream with
  | nil => exact absurd rfl hne
  | cons f rest =>
    have hf : f.identity = id := hall f (by simp)
    have hstep : Aggregator.empty.processFindings (f :: rest)
        = (Aggregator.empty.addFinding f).processFindings rest := rfl
    have ha : (Aggregator.empty.addFinding f).seen = [id] ∧
        (Aggregator.empty.addFinding f).emitted = [f] ∧
        (Aggregator.empty.addFinding f).rawOccurrences id = 1 := by
      refine ⟨?_, ?_, ?_⟩ <;>
        simp [Aggregator.addFinding, Aggregator.empty, hf]
    have hrest := processFindings_all_seen (Aggregator.empty.addFinding f) id rest
      (fun g hg => hall g (by simp [hg])) (by rw [ha.1]; exact List.mem_singleton.mpr rfl)
    constructor
    · rw [hstep, hrest.2.1, ha.2.1]
      rfl
    · rw [hstep, hrest.2.2, ha.2.2]
      simp only [List.length_cons]
      omega

theorem one_finding_per_signature_witness :
    (Aggregator.empty.processFindings
        [⟨"sig", "a"⟩, ⟨"sig", "b"⟩, ⟨"sig", "c"⟩]).emitted.length = 1 ∧
    (Aggregator.empty.processFindings
        [⟨"sig", "a"⟩, ⟨"sig", "b"⟩, ⟨"sig", "c"⟩]).rawOccurrences "sig" = 3 := by
  have h := one_finding_per_signature "sig"
    [⟨"sig", "a"⟩, ⟨"sig", "b"⟩, ⟨"sig", "c"⟩] (by decide) (by decide)
  simpa using h
